import Mathlib

/-!
Verification of the two mex entry points of the eyherabidehg2016a repository
(`infoGauss.c` and `dinidlGaussTheta.c`) against their natural-language
specification.

The C code computes with IEEE doubles.  We embed the computation in exact
real arithmetic: every finite double becomes a real number, and the
non-finite values (`+inf`, `-inf`, `nan`) that the code's `isfinite` guards
test for are represented explicitly by the four-constructor type `Dbl`
below, with the IEEE propagation rules for the operations the integrands
actually perform (`+`, `-`, `*`, `/`, `log`).  Quantities that are provably
finite in exact arithmetic (the densities `psx`/`pisx`, built from `exp` of
a finite real) are carried as plain reals; non-finiteness can only enter
through `log` of a non-positive argument, division by zero, and `0 * inf`,
exactly the channels the source's `isfinite` checks guard against.

The external collaborators (the cubature integrator `hcubature_v` and the
GSL Brent minimizer) are not part of the repository's own sources; they are
modelled as opaque-function parameters, with the call sites (arguments,
bounds, tolerances, call count, call order) embedded faithfully.
-/

namespace GaussInfo

/-- Model of an IEEE double in exact arithmetic: a finite real, one of the
two infinities, or `nan`. -/
inductive Dbl where
  | nan : Dbl
  | pinf : Dbl
  | ninf : Dbl
  | fin : ℝ → Dbl

/-- The `isfinite` predicate of `math.h`. -/
def Dbl.isFinite : Dbl → Bool
  | .fin _ => true
  | _ => false

/-- IEEE negation. -/
def Dbl.neg : Dbl → Dbl
  | .nan => .nan
  | .pinf => .ninf
  | .ninf => .pinf
  | .fin a => .fin (-a)

/-- IEEE addition: `nan` is absorbing, opposite infinities give `nan`. -/
def Dbl.add : Dbl → Dbl → Dbl
  | .nan, _ => .nan
  | _, .nan => .nan
  | .pinf, .ninf => .nan
  | .ninf, .pinf => .nan
  | .pinf, _ => .pinf
  | _, .pinf => .pinf
  | .ninf, _ => .ninf
  | _, .ninf => .ninf
  | .fin a, .fin b => .fin (a + b)

/-- IEEE subtraction, as addition of the negation. -/
def Dbl.sub (a b : Dbl) : Dbl := a.add b.neg

/-- IEEE multiplication: `nan` absorbing, `0 * inf = nan`, signs as usual. -/
noncomputable def Dbl.mul : Dbl → Dbl → Dbl
  | .nan, _ => .nan
  | _, .nan => .nan
  | .pinf, .pinf => .pinf
  | .pinf, .ninf => .ninf
  | .ninf, .pinf => .ninf
  | .ninf, .ninf => .pinf
  | .pinf, .fin b => if 0 < b then .pinf else if b < 0 then .ninf else .nan
  | .ninf, .fin b => if 0 < b then .ninf else if b < 0 then .pinf else .nan
  | .fin a, .pinf => if 0 < a then .pinf else if a < 0 then .ninf else .nan
  | .fin a, .ninf => if 0 < a then .ninf else if a < 0 then .pinf else .nan
  | .fin a, .fin b => .fin (a * b)

/-- IEEE division for the cases the integrands can reach.  Zero is treated
as `+0` (the exact-arithmetic densities carry no sign of zero), so
`a / 0 = +inf` for `a > 0`, `-inf` for `a < 0`, and `0 / 0 = nan`. -/
noncomputable def Dbl.div : Dbl → Dbl → Dbl
  | .nan, _ => .nan
  | _, .nan => .nan
  | .pinf, .pinf => .nan
  | .pinf, .ninf => .nan
  | .ninf, .pinf => .nan
  | .ninf, .ninf => .nan
  | .pinf, .fin b => if 0 ≤ b then .pinf else .ninf
  | .ninf, .fin b => if 0 ≤ b then .ninf else .pinf
  | .fin _, .pinf => .fin 0
  | .fin _, .ninf => .fin 0
  | .fin a, .fin b =>
      if b = 0 then (if 0 < a then .pinf else if a < 0 then .ninf else .nan)
      else .fin (a / b)

/-- IEEE natural logarithm: `log (+0) = -inf`, `log` of a negative is
`nan`, `log (+inf) = +inf`. -/
noncomputable def Dbl.log : Dbl → Dbl
  | .nan => .nan
  | .pinf => .pinf
  | .ninf => .nan
  | .fin a => if 0 < a then .fin (Real.log a) else if a = 0 then .ninf else .nan

/-- The value written into the output array: the real value when finite,
`0` otherwise (the source's `isfinite(v) ? v : 0`). -/
def Dbl.orZero : Dbl → ℝ
  | .fin v => v
  | _ => 0

/-- The class mean shifts `mu[2] = {1,-1}` of both `NDIntegrand`s. -/
noncomputable def muOf (k : ℕ) : ℝ := if k = 0 then 1 else -1

/-- The accumulated `xc2sum` of `NDIntegrand` after the coordinate loop and
the final `xc2sum *= -0.5`: sum over the `d` coordinates of the squared
shifted coordinate, times `-1/2`. -/
noncomputable def sOf (d : ℕ) (pt : ℕ → ℝ) (mu : ℝ) : ℝ :=
  (∑ i in Finset.range d, (pt i + mu) * (pt i + mu)) * (-(1 / 2))

/-- The accumulated `xcprod` of `NDIntegrand`: product over the `d`
coordinates of the shifted coordinate (starts at `1`). -/
noncomputable def prodOf (d : ℕ) (pt : ℕ → ℝ) (mu : ℝ) : ℝ :=
  ∏ i in Finset.range d, (pt i + mu)

/-- The class-`k` model density of both `NDIntegrand`s:
`psx = params[2+k] * exp(params[4+k]*xc2sum + params[6+k]*xcprod)`.
A product of a real with `exp` of a real, hence always finite in exact
arithmetic. -/
noncomputable def psxOf (P : ℕ → ℝ) (k : ℕ) (s q : ℝ) : ℝ :=
  P (2 + k) * Real.exp (P (4 + k) * s + P (6 + k) * q)

/-- The class-`k` reference ("independent") density of the divergence
`NDIntegrand` of `dinidlGaussTheta.c`:
`pisx = params[0+k] * exp(params[8+k]*xc2sum)`.  Note the weight slot is
`params[0+k]` (the raw mixing weight), not `params[2+k]`. -/
noncomputable def pisxOf (P : ℕ → ℝ) (k : ℕ) (s : ℝ) : ℝ :=
  P k * Real.exp (P (8 + k) * s)

/-- The class-`k` summand `psx * log(psx/pisx)` of the divergence
integrand, with IEEE semantics for the `log`, the division and the
product. -/
noncomputable def divTerm (P : ℕ → ℝ) (d : ℕ) (pt : ℕ → ℝ) (k : ℕ) : Dbl :=
  let s := sOf d pt (muOf k)
  let q := prodOf d pt (muOf k)
  let psx := psxOf P k s q
  let pisx := pisxOf P k s
  Dbl.mul (.fin psx) (Dbl.log (Dbl.div (.fin psx) (.fin pisx)))

/-- The accumulator `dinow` after the class loop of the divergence
`NDIntegrand`, including the mid-loop guard: `dinow = 0`, add the class-0
term, and if the result is not finite `break` out of the loop (the class-1
term is never added). -/
noncomputable def divDinow (P : ℕ → ℝ) (d : ℕ) (pt : ℕ → ℝ) : Dbl :=
  let t0 := Dbl.add (.fin 0) (divTerm P d pt 0)
  if t0.isFinite then Dbl.add t0 (divTerm P d pt 1) else t0

/-- The value the divergence `NDIntegrand` writes for one sample point:
if `dinow` survived the class loop finite, subtract `px * log(px/pix)` and
keep the result if finite, else write `0`; if `dinow` was non-finite,
write `0`. -/
noncomputable def divPointVal (P : ℕ → ℝ) (d : ℕ) (pt : ℕ → ℝ) : ℝ :=
  match divDinow P d pt with
  | .fin v =>
      let px := psxOf P 0 (sOf d pt (muOf 0)) (prodOf d pt (muOf 0)) +
                psxOf P 1 (sOf d pt (muOf 1)) (prodOf d pt (muOf 1))
      let pix := pisxOf P 0 (sOf d pt (muOf 0)) + pisxOf P 1 (sOf d pt (muOf 1))
      Dbl.orZero (Dbl.sub (.fin v) (Dbl.mul (.fin px) (Dbl.log (Dbl.div (.fin px) (.fin pix)))))
  | _ => 0

/-- The batch loop of the divergence `NDIntegrand`: the flat input array
`x` holds `numx` points of `d` coordinates each; the pointer advances by
`d` after each point. -/
noncomputable def divBatch (P : ℕ → ℝ) (d : ℕ) (x : ℕ → ℝ) : ℕ → List ℝ
  | 0 => []
  | n + 1 => divPointVal P d x :: divBatch P d (fun j => x (j + d)) n

/-- The class-`k` summand `psx * log(psx)` of the entropy integrand of
`infoGauss.c`. -/
noncomputable def entTerm (P : ℕ → ℝ) (d : ℕ) (pt : ℕ → ℝ) (k : ℕ) : Dbl :=
  let s := sOf d pt (muOf k)
  let q := prodOf d pt (muOf k)
  let psx := psxOf P k s q
  Dbl.mul (.fin psx) (Dbl.log (.fin psx))

/-- The accumulator `infonow` after the class loop of the entropy
`NDIntegrand`, with the same mid-loop `isfinite` guard. -/
noncomputable def entDinow (P : ℕ → ℝ) (d : ℕ) (pt : ℕ → ℝ) : Dbl :=
  let t0 := Dbl.add (.fin 0) (entTerm P d pt 0)
  if t0.isFinite then Dbl.add t0 (entTerm P d pt 1) else t0

/-- The value the entropy `NDIntegrand` writes for one sample point. -/
noncomputable def entPointVal (P : ℕ → ℝ) (d : ℕ) (pt : ℕ → ℝ) : ℝ :=
  match entDinow P d pt with
  | .fin v =>
      let px := psxOf P 0 (sOf d pt (muOf 0)) (prodOf d pt (muOf 0)) +
                psxOf P 1 (sOf d pt (muOf 1)) (prodOf d pt (muOf 1))
      Dbl.orZero (Dbl.sub (.fin v) (Dbl.mul (.fin px) (Dbl.log (.fin px))))
  | _ => 0

/-- The batch loop of the entropy `NDIntegrand`. -/
noncomputable def entBatch (P : ℕ → ℝ) (d : ℕ) (x : ℕ → ℝ) : ℕ → List ℝ
  | 0 => []
  | n + 1 => entPointVal P d x :: entBatch P d (fun j => x (j + d)) n

/-- One invocation of the external adaptive integrator `hcubature_v`,
recorded with the arguments the source passes: the (vectorized) integrand,
the coefficient array, the dimension, the per-axis bounds, `maxEval`, and
the two tolerances.  The integrator itself is an external collaborator and
is kept opaque: entry-point models take a function `IntCall → ℝ × ℝ`
returning the estimate and the error estimate. -/
structure IntCall where
  integrand : (ℕ → ℝ) → ℕ → (ℕ → ℝ) → ℕ → List ℝ
  coeffs : ℕ → ℝ
  dim : ℕ
  lo : ℝ
  hi : ℝ
  maxEval : ℕ
  absTol : ℝ
  relTol : ℝ

/-- The coefficient array `params[10]` as `diTheta` of `dinidlGaussTheta.c`
fills it before the first (2-D) `hcubature_v` call, assignment by
assignment:
`params[0]=p`, `params[1]=1-p`, `params[4]=1/(1-rho1*rho1)`,
`params[5]=1/(1-rho2*rho2)`, `params[2]=params[0]*sqrt(params[4])/(2*pi)`,
`params[3]=params[1]*sqrt(params[5])/(2*pi)`, `params[6]=rho1*params[4]`,
`params[7]=rho2*params[5]`, `params[8]=params[9]=th`. -/
noncomputable def diThetaParams2D (p r1 r2 th : ℝ) : ℕ → ℝ :=
  let p0 := p
  let p1 := 1 - p
  let p4 := 1 / (1 - r1 * r1)
  let p5 := 1 / (1 - r2 * r2)
  let p2 := p0 * Real.sqrt p4 / (2 * Real.pi)
  let p3 := p1 * Real.sqrt p5 / (2 * Real.pi)
  let p6 := r1 * p4
  let p7 := r2 * p5
  fun i => match i with
  | 0 => p0 | 1 => p1 | 2 => p2 | 3 => p3 | 4 => p4
  | 5 => p5 | 6 => p6 | 7 => p7 | 8 => th | 9 => th
  | _ => 0

/-- The coefficient array as `diTheta` mutates it between the two
`hcubature_v` calls: `params[0]=params[1]` (the old `1-p`),
`params[1]=par[0]`, `params[4]=params[5]=1`,
`params[2]=params[0]/sqrt(2*pi)`, `params[3]=params[1]/sqrt(2*pi)`,
`params[6]=params[7]=0`; slots 8 and 9 keep the threshold `th`. -/
noncomputable def diThetaParams1D (p r1 r2 th : ℝ) : ℕ → ℝ :=
  let prev := diThetaParams2D p r1 r2 th
  let q0 := prev 1
  let q1 := p
  let q2 := q0 / Real.sqrt (2 * Real.pi)
  let q3 := q1 / Real.sqrt (2 * Real.pi)
  fun i => match i with
  | 0 => q0 | 1 => q1 | 2 => q2 | 3 => q3 | 4 => 1
  | 5 => 1 | 6 => 0 | 7 => 0 | 8 => prev 8 | 9 => prev 9
  | _ => 0

/-- The first `hcubature_v` call of `diTheta`: divergence integrand,
2-D coefficients, dimension 2, bounds `[-5,5]` on each axis,
`maxEval = 1000`, `absTol = 1e-6`, `relTol = 1e-3`. -/
noncomputable def diThetaCall2D (p r1 r2 th : ℝ) : IntCall :=
  ⟨divBatch, diThetaParams2D p r1 r2 th, 2, -5, 5, 1000, 1 / 1000000, 1 / 1000⟩

/-- The second `hcubature_v` call of `diTheta`: divergence integrand,
mutated 1-D coefficients, dimension 1, same bounds and tolerances. -/
noncomputable def diThetaCall1D (p r1 r2 th : ℝ) : IntCall :=
  ⟨divBatch, diThetaParams1D p r1 r2 th, 1, -5, 5, 1000, 1 / 1000000, 1 / 1000⟩

/-- `diTheta` of `dinidlGaussTheta.c`, parametric in the external
integrator `I`: fill the 2-D coefficients, integrate, mutate to the 1-D
coefficients, integrate, and return `dival1D + dival2D` (the `errorval`
out-parameter — the second component — is dropped both times). -/
noncomputable def diTheta (I : IntCall → ℝ × ℝ) (th p r1 r2 : ℝ) : ℝ :=
  (I (diThetaCall1D p r1 r2 th)).1 + (I (diThetaCall2D p r1 r2 th)).1

/-- The integrator invocations one evaluation of `diTheta` performs, in
call order: first the 2-D call, then the 1-D call.  No other work — in
particular no parameter validation — precedes the first call. -/
noncomputable def diThetaCalls (th p r1 r2 : ℝ) : List IntCall :=
  [diThetaCall2D p r1 r2 th, diThetaCall1D p r1 r2 th]

/-- The coefficient array `params[8]` of `mexFunction` in `infoGauss.c`
when one parameter is supplied (`parnum == 1`, the 1-D branch):
`params[4]=params[5]=1`, `params[2]=params[0]/sqrt(2*pi)`,
`params[3]=params[1]/sqrt(2*pi)`, `params[6]=params[7]=0`. -/
noncomputable def infoGaussParams1D (p : ℝ) : ℕ → ℝ :=
  let p0 := p
  let p1 := 1 - p
  let p2 := p0 / Real.sqrt (2 * Real.pi)
  let p3 := p1 / Real.sqrt (2 * Real.pi)
  fun i => match i with
  | 0 => p0 | 1 => p1 | 2 => p2 | 3 => p3 | 4 => 1
  | 5 => 1 | 6 => 0 | 7 => 0
  | _ => 0

/-- The coefficient array of `mexFunction` in `infoGauss.c` in the 2-D
branch; identical formulas to the 2-D block of `diTheta`. -/
noncomputable def infoGaussParams2D (p r1 r2 : ℝ) : ℕ → ℝ :=
  let p0 := p
  let p1 := 1 - p
  let p4 := 1 / (1 - r1 * r1)
  let p5 := 1 / (1 - r2 * r2)
  let p2 := p0 * Real.sqrt p4 / (2 * Real.pi)
  let p3 := p1 * Real.sqrt p5 / (2 * Real.pi)
  let p6 := r1 * p4
  let p7 := r2 * p5
  fun i => match i with
  | 0 => p0 | 1 => p1 | 2 => p2 | 3 => p3 | 4 => p4
  | 5 => p5 | 6 => p6 | 7 => p7
  | _ => 0

/-- The coefficient array `mexFunction` of `infoGauss.c` assembles,
branching on the number of supplied parameters. -/
noncomputable def infoGaussParams (par : ℕ → ℝ) (parnum : ℕ) : ℕ → ℝ :=
  if parnum = 1 then infoGaussParams1D (par 0)
  else infoGaussParams2D (par 0) (par 1) (par 2)

/-- The integration dimension of `infoGauss.c`: `1` when a single
parameter is supplied, else `parnum[0] = 2`. -/
def infoGaussDim (parnum : ℕ) : ℕ := if parnum = 1 then 1 else 2

/-- The single `hcubature_v` call of `infoGauss.c`: entropy integrand,
assembled coefficients, bounds `[-5,5]` on each axis, `maxEval = 1000`,
`absTol = 1e-6`, `relTol = 1e-3`. -/
noncomputable def infoGaussCall (par : ℕ → ℝ) (parnum : ℕ) : IntCall :=
  ⟨entBatch, infoGaussParams par parnum, infoGaussDim parnum, -5, 5, 1000,
    1 / 1000000, 1 / 1000⟩

/-- `mexFunction` of `infoGauss.c`, parametric in the external integrator:
the integral estimate plus
`-params[0]*log(params[0]) - params[1]*log(params[1])`. -/
noncomputable def infoGaussMex (I : IntCall → ℝ × ℝ) (par : ℕ → ℝ) (parnum : ℕ) : ℝ :=
  let P := infoGaussParams par parnum
  (I (infoGaussCall par parnum)).1 + (-(P 0) * Real.log (P 0) - P 1 * Real.log (P 1))

/-- The integrator invocations `infoGauss.c` performs: exactly one, with
no parameter validation preceding it. -/
noncomputable def infoGaussCalls (par : ℕ → ℝ) (parnum : ℕ) : List IntCall :=
  [infoGaussCall par parnum]

/-- Validity of `MixtureParams` in the spec's sense:
`p ∈ (0,1)`, `|rho1| < 1`, `|rho2| < 1`. -/
def validParams (p r1 r2 : ℝ) : Prop :=
  0 < p ∧ p < 1 ∧ |r1| < 1 ∧ |r2| < 1

/-- The three-point bracket state of `mexFunction` in `dinidlGaussTheta.c`:
the thresholds `thl, thm, thr` and the cached loss values
`dil = f(thl)`, `dim = f(thm)`, `dir = f(thr)`.  Generic in the domain
(an ordered field, for the doubling) and the value order, so that it can
be instantiated with exact rationals as well as with the reals. -/
structure BracketSt (α β : Type) where
  thl : α
  thm : α
  thr : α
  dil : β
  dim : β
  dir : β
  deriving DecidableEq

/-- The first expansion loop of `mexFunction`
(`while(dil<dim){dir=dim; dim=dil; thr=thm; thm=thl; dil=f(thl*=2);}`),
with explicit fuel; `none` means the fuel ran out before the loop
condition failed. -/
def expandLeft {α β : Type} [LinearOrderedField α] [LinearOrder β]
    (f : α → β) : ℕ → BracketSt α β → Option (BracketSt α β)
  | 0, _ => none
  | n + 1, b =>
      if b.dil < b.dim then
        expandLeft f n ⟨b.thl * 2, b.thl, b.thm, f (b.thl * 2), b.dil, b.dim⟩
      else some b

/-- The second expansion loop of `mexFunction`
(`while(dir<dim){dil=dim; dim=dir; thl=thm; thm=thr; dir=f(thr*=2);}`). -/
def expandRight {α β : Type} [LinearOrderedField α] [LinearOrder β]
    (f : α → β) : ℕ → BracketSt α β → Option (BracketSt α β)
  | 0, _ => none
  | n + 1, b =>
      if b.dir < b.dim then
        expandRight f n ⟨b.thm, b.thr, b.thr * 2, b.dim, b.dir, f (b.thr * 2)⟩
      else some b

/-- The seed bracket of `mexFunction`: `thl=-0.5, thm=0.5, thr=1.5` with
their loss values. -/
def bracketInit {α β : Type} [LinearOrderedField α] (f : α → β) : BracketSt α β :=
  ⟨-(1 / 2), 1 / 2, 3 / 2, f (-(1 / 2)), f (1 / 2), f (3 / 2)⟩

/-- The bracket-expansion phase of `mexFunction`: the left loop from the
seed triple, then the right loop; `some` exactly when both loops exit by
their conditions within the given fuel. -/
def bracketSearch {α β : Type} [LinearOrderedField α] [LinearOrder β]
    (f : α → β) (fuel : ℕ) : Option (BracketSt α β) :=
  (expandLeft f fuel (bracketInit f)).bind (expandRight f fuel)

/-- The state of the minimizer refinement loop of `mexFunction` in
`dinidlGaussTheta.c`: the counter `iter` and the current bracket
`[thl, thr]` read back from the GSL minimizer.  Exact rationals, since
only order comparisons and the tolerance test touch these values. -/
structure MinState where
  iter : ℕ
  thl : ℚ
  thr : ℚ
  deriving DecidableEq

/-- Modelled from the spec: the Minimizer collaborator's convergence test
(`gsl_min_test_interval(thl, thr, 1e-6, 1e-3)`), an external GSL routine
not part of this repository.  Returns `true` when the loop should
CONTINUE: the width `|thr - thl|` has not yet met the combined tolerance
`absTol + relTol * min(|thl|,|thr|)` (the relative part applying only when
the interval does not straddle zero). -/
def gslTestContinue (lo hi : ℚ) : Bool :=
  let minAbs : ℚ := if (0 < lo ∧ 0 < hi) ∨ (lo < 0 ∧ hi < 0) then min |lo| |hi| else 0
  decide (¬(|hi - lo| < 1 / 1000000 + (1 / 1000) * minAbs))

/-- The loop body of the refinement `do`-`while`: one minimizer iterate
(the external black box, supplied as the interval sequence `steps`),
then `thl`/`thr` are read back.  Faithful to the source: the body never
touches `iter`. -/
def minRefineBody (steps : ℕ → ℚ × ℚ) (n : ℕ) (st : MinState) : MinState :=
  ⟨st.iter, (steps n).1, (steps n).2⟩

/-- The loop state after `n` executions of the refinement body, starting
from `init` (which has `iter = 0` per `int iter = 0;`). -/
def minRefineState (steps : ℕ → ℚ × ℚ) (init : MinState) : ℕ → MinState
  | 0 => init
  | n + 1 => minRefineBody steps n (minRefineState steps init n)

/-- The `while` condition of the refinement loop:
`gsl_min_test_interval(...) == GSL_CONTINUE && iter < max_iter` with
`max_iter = 1000`. -/
def minLoopCond (st : MinState) : Bool :=
  gslTestContinue st.thl st.thr && decide (st.iter < 1000)

/-- A minimizer trajectory whose bracket never shrinks: every iterate
reports the interval `[0, 1]`. -/
def constSteps : ℕ → ℚ × ℚ := fun _ => (0, 1)

/-- The coefficient formulas exactly as the spec words them, for one
dimension: `a_k = 1`, `b_k = 0`, `w_k = p_k / sqrt(2*pi)`, with the two
class weights `p1, p2` supplied by the caller. -/
noncomputable def specCoeffs1D (p1 p2 : ℝ) : ℕ → ℝ :=
  fun i => match i with
  | 0 => p1
  | 1 => p2
  | 2 => p1 / Real.sqrt (2 * Real.pi)
  | 3 => p2 / Real.sqrt (2 * Real.pi)
  | 4 => 1
  | 5 => 1
  | 6 => 0
  | 7 => 0
  | _ => 0

/-- The coefficient formulas exactly as the spec words them, for two
dimensions: `a_k = 1/(1-rho_k^2)`, `w_k = p_k * sqrt(a_k) / (2*pi)`,
`b_k = rho_k * a_k`. -/
noncomputable def specCoeffs2D (p1 p2 r1 r2 : ℝ) : ℕ → ℝ :=
  fun i => match i with
  | 0 => p1
  | 1 => p2
  | 2 => p1 * Real.sqrt (1 / (1 - r1 ^ 2)) / (2 * Real.pi)
  | 3 => p2 * Real.sqrt (1 / (1 - r2 ^ 2)) / (2 * Real.pi)
  | 4 => 1 / (1 - r1 ^ 2)
  | 5 => 1 / (1 - r2 ^ 2)
  | 6 => r1 * (1 / (1 - r1 ^ 2))
  | 7 => r2 * (1 / (1 - r2 ^ 2))
  | _ => 0

/-- The 2-D divergence coefficient set as claim C4 words it: the 2-D
correlated coefficients with class weights `p, 1-p` and reference scale
`theta` in slots 8 and 9. -/
noncomputable def specDivCoeffs2D (p r1 r2 th : ℝ) : ℕ → ℝ :=
  fun i => match i with
  | 8 => th
  | 9 => th
  | i' => specCoeffs2D p (1 - p) r1 r2 i'

/-- The 1-D divergence coefficient set as claim C4 words it: mixing
weights swapped (`p <-> 1-p`), `a = 1`, `b = 0`, the same reference scale
`theta`. -/
noncomputable def specDivCoeffs1D (p th : ℝ) : ℕ → ℝ :=
  fun i => match i with
  | 8 => th
  | 9 => th
  | i' => specCoeffs1D (1 - p) p i'

/-- The unguarded pointwise divergence formula
`sum_k psx_k*log(psx_k/pisx_k) - px*log(px/pix)` in plain real
arithmetic, as the spec states it. -/
noncomputable def divUnguarded (P : ℕ → ℝ) (d : ℕ) (pt : ℕ → ℝ) : ℝ :=
  let ps0 := psxOf P 0 (sOf d pt (muOf 0)) (prodOf d pt (muOf 0))
  let ps1 := psxOf P 1 (sOf d pt (muOf 1)) (prodOf d pt (muOf 1))
  let pi0 := pisxOf P 0 (sOf d pt (muOf 0))
  let pi1 := pisxOf P 1 (sOf d pt (muOf 1))
  ps0 * Real.log (ps0 / pi0) + ps1 * Real.log (ps1 / pi1) -
    (ps0 + ps1) * Real.log ((ps0 + ps1) / (pi0 + pi1))

/-- The unguarded pointwise entropy formula
`sum_k psx_k*log(psx_k) - px*log(px)` in plain real arithmetic. -/
noncomputable def entUnguarded (P : ℕ → ℝ) (d : ℕ) (pt : ℕ → ℝ) : ℝ :=
  let ps0 := psxOf P 0 (sOf d pt (muOf 0)) (prodOf d pt (muOf 0))
  let ps1 := psxOf P 1 (sOf d pt (muOf 1)) (prodOf d pt (muOf 1))
  ps0 * Real.log ps0 + ps1 * Real.log ps1 - (ps0 + ps1) * Real.log (ps0 + ps1)

/-- The degenerate-case policy exactly as claim C7 words it: each class
term is individually replaced by `0` when non-finite, the other class term
and the final `px*log(px/pix)` correction (itself individually guarded)
still contribute. -/
noncomputable def claimedPointDiv (P : ℕ → ℝ) (d : ℕ) (pt : ℕ → ℝ) : ℝ :=
  let t0 := Dbl.orZero (divTerm P d pt 0)
  let t1 := Dbl.orZero (divTerm P d pt 1)
  let px := psxOf P 0 (sOf d pt (muOf 0)) (prodOf d pt (muOf 0)) +
            psxOf P 1 (sOf d pt (muOf 1)) (prodOf d pt (muOf 1))
  let pix := pisxOf P 0 (sOf d pt (muOf 0)) + pisxOf P 1 (sOf d pt (muOf 1))
  t0 + t1 - Dbl.orZero (Dbl.mul (.fin px) (Dbl.log (Dbl.div (.fin px) (.fin pix))))

/-- A concrete divergence coefficient array with `w1 = params[2] = 0`
(so `psx_1 = 0` and its class term is `0 * log 0 = nan`), all other
weights `1`, `a2 = -2`, and both reference scales `0`. -/
noncomputable def exParams : ℕ → ℝ :=
  fun i => match i with
  | 0 => 1 | 1 => 1 | 3 => 1 | 5 => -2
  | _ => 0

/-- A concrete 1-D sample point at the origin. -/
noncomputable def exPoint : ℕ → ℝ := fun _ => 0

/-- A concrete entropy coefficient array with `w1 = params[2] = 0`, so the
class-0 entropy term is `0 * log 0 = nan`. -/
noncomputable def exEntParams : ℕ → ℝ :=
  fun i => match i with
  | 3 => 1
  | _ => 0

theorem Dbl.add_fin_fin (a b : ℝ) : Dbl.add (.fin a) (.fin b) = .fin (a + b) := rfl

theorem Dbl.mul_fin_fin (a b : ℝ) : Dbl.mul (.fin a) (.fin b) = .fin (a * b) := rfl

theorem Dbl.sub_fin_fin (a b : ℝ) : Dbl.sub (.fin a) (.fin b) = .fin (a - b) := by
  simp [Dbl.sub, Dbl.neg, Dbl.add, sub_eq_add_neg]

theorem Dbl.div_fin_fin (a b : ℝ) (hb : b ≠ 0) :
    Dbl.div (.fin a) (.fin b) = .fin (a / b) := by
  simp [Dbl.div, hb]

theorem Dbl.log_fin_pos (a : ℝ) (ha : 0 < a) :
    Dbl.log (.fin a) = .fin (Real.log a) := by
  simp [Dbl.log, ha]

theorem psxOf_pos (P : ℕ → ℝ) (k : ℕ) (s q : ℝ) (h : 0 < P (2 + k)) :
    0 < psxOf P k s q :=
  mul_pos h (Real.exp_pos _)

theorem pisxOf_pos (P : ℕ → ℝ) (k : ℕ) (s : ℝ) (h : 0 < P k) :
    0 < pisxOf P k s :=
  mul_pos h (Real.exp_pos _)

theorem divTerm_of_pos (P : ℕ → ℝ) (d : ℕ) (pt : ℕ → ℝ) (k : ℕ)
    (h2 : 0 < P (2 + k)) (h0 : 0 < P k) :
    divTerm P d pt k =
      .fin (psxOf P k (sOf d pt (muOf k)) (prodOf d pt (muOf k)) *
        Real.log (psxOf P k (sOf d pt (muOf k)) (prodOf d pt (muOf k)) /
          pisxOf P k (sOf d pt (muOf k)))) := by
  have hps := psxOf_pos P k (sOf d pt (muOf k)) (prodOf d pt (muOf k)) h2
  have hpi := pisxOf_pos P k (sOf d pt (muOf k)) h0
  simp only [divTerm]
  rw [Dbl.div_fin_fin _ _ (ne_of_gt hpi), Dbl.log_fin_pos _ (div_pos hps hpi),
    Dbl.mul_fin_fin]

theorem entTerm_of_pos (P : ℕ → ℝ) (d : ℕ) (pt : ℕ → ℝ) (k : ℕ)
    (h2 : 0 < P (2 + k)) :
    entTerm P d pt k =
      .fin (psxOf P k (sOf d pt (muOf k)) (prodOf d pt (muOf k)) *
        Real.log (psxOf P k (sOf d pt (muOf k)) (prodOf d pt (muOf k)))) := by
  have hps := psxOf_pos P k (sOf d pt (muOf k)) (prodOf d pt (muOf k)) h2
  simp only [entTerm]
  rw [Dbl.log_fin_pos _ hps, Dbl.mul_fin_fin]

theorem divPointVal_eq_unguarded (P : ℕ → ℝ) (h0 : 0 < P 0) (h1 : 0 < P 1)
    (h2 : 0 < P 2) (h3 : 0 < P 3) (d : ℕ) (pt : ℕ → ℝ) :
    divPointVal P d pt = divUnguarded P d pt := by
  have e0 := divTerm_of_pos P d pt 0 (by norm_num [h2]) (by norm_num [h0])
  have e1 := divTerm_of_pos P d pt 1 (by norm_num [h3]) (by norm_num [h1])
  have hps0 : 0 < psxOf P 0 (sOf d pt (muOf 0)) (prodOf d pt (muOf 0)) :=
    psxOf_pos P 0 _ _ (by norm_num [h2])
  have hps1 : 0 < psxOf P 1 (sOf d pt (muOf 1)) (prodOf d pt (muOf 1)) :=
    psxOf_pos P 1 _ _ (by norm_num [h3])
  have hpi0 : 0 < pisxOf P 0 (sOf d pt (muOf 0)) := pisxOf_pos P 0 _ (by norm_num [h0])
  have hpi1 : 0 < pisxOf P 1 (sOf d pt (muOf 1)) := pisxOf_pos P 1 _ (by norm_num [h1])
  have hpx := add_pos hps0 hps1
  have hpix := add_pos hpi0 hpi1
  simp only [divPointVal, divDinow, e0, e1, Dbl.add_fin_fin, Dbl.isFinite, if_true,
    divUnguarded]
  rw [Dbl.div_fin_fin _ _ (ne_of_gt hpix), Dbl.log_fin_pos _ (div_pos hpx hpix),
    Dbl.mul_fin_fin, Dbl.sub_fin_fin, Dbl.orZero]
  ring

theorem entPointVal_eq_unguarded (P : ℕ → ℝ) (h2 : 0 < P 2) (h3 : 0 < P 3)
    (d : ℕ) (pt : ℕ → ℝ) :
    entPointVal P d pt = entUnguarded P d pt := by
  have e0 := entTerm_of_pos P d pt 0 (by norm_num [h2])
  have e1 := entTerm_of_pos P d pt 1 (by norm_num [h3])
  have hps0 : 0 < psxOf P 0 (sOf d pt (muOf 0)) (prodOf d pt (muOf 0)) :=
    psxOf_pos P 0 _ _ (by norm_num [h2])
  have hps1 : 0 < psxOf P 1 (sOf d pt (muOf 1)) (prodOf d pt (muOf 1)) :=
    psxOf_pos P 1 _ _ (by norm_num [h3])
  have hpx := add_pos hps0 hps1
  simp only [entPointVal, entDinow, e0, e1, Dbl.add_fin_fin, Dbl.isFinite, if_true,
    entUnguarded]
  rw [Dbl.log_fin_pos _ hpx, Dbl.mul_fin_fin, Dbl.sub_fin_fin, Dbl.orZero]
  ring

theorem one_sub_mul_self_pos (r : ℝ) (hr : |r| < 1) : 0 < 1 - r * r := by
  have h := abs_lt.mp hr
  nlinarith [h.1, h.2]

theorem diThetaParams2D_weights_pos (p r1 r2 th : ℝ) (hp0 : 0 < p) (hp1 : p < 1)
    (hr1 : |r1| < 1) (hr2 : |r2| < 1) :
    0 < diThetaParams2D p r1 r2 th 0 ∧ 0 < diThetaParams2D p r1 r2 th 1 ∧
    0 < diThetaParams2D p r1 r2 th 2 ∧ 0 < diThetaParams2D p r1 r2 th 3 := by
  have h4 := one_sub_mul_self_pos r1 hr1
  have h5 := one_sub_mul_self_pos r2 hr2
  have hq : 0 < 1 - p := by linarith
  have hpi := Real.pi_pos
  refine ⟨hp0, hq, ?_, ?_⟩
  · show 0 < p * Real.sqrt (1 / (1 - r1 * r1)) / (2 * Real.pi)
    have := Real.sqrt_pos.mpr (div_pos one_pos h4)
    positivity
  · show 0 < (1 - p) * Real.sqrt (1 / (1 - r2 * r2)) / (2 * Real.pi)
    have := Real.sqrt_pos.mpr (div_pos one_pos h5)
    positivity

theorem diThetaParams1D_weights_pos (p r1 r2 th : ℝ) (hp0 : 0 < p) (hp1 : p < 1) :
    0 < diThetaParams1D p r1 r2 th 0 ∧ 0 < diThetaParams1D p r1 r2 th 1 ∧
    0 < diThetaParams1D p r1 r2 th 2 ∧ 0 < diThetaParams1D p r1 r2 th 3 := by
  have hq : 0 < 1 - p := by linarith
  have hpi := Real.pi_pos
  have hs : 0 < Real.sqrt (2 * Real.pi) := Real.sqrt_pos.mpr (by positivity)
  refine ⟨hq, hp0, ?_, ?_⟩
  · show 0 < (1 - p) / Real.sqrt (2 * Real.pi)
    positivity
  · show 0 < p / Real.sqrt (2 * Real.pi)
    positivity

theorem infoGaussParams2D_weights_pos (p r1 r2 : ℝ) (hp0 : 0 < p) (hp1 : p < 1)
    (hr1 : |r1| < 1) (hr2 : |r2| < 1) :
    0 < infoGaussParams2D p r1 r2 2 ∧ 0 < infoGaussParams2D p r1 r2 3 := by
  have h4 := one_sub_mul_self_pos r1 hr1
  have h5 := one_sub_mul_self_pos r2 hr2
  have hq : 0 < 1 - p := by linarith
  have hpi := Real.pi_pos
  constructor
  · show 0 < p * Real.sqrt (1 / (1 - r1 * r1)) / (2 * Real.pi)
    have := Real.sqrt_pos.mpr (div_pos one_pos h4)
    positivity
  · show 0 < (1 - p) * Real.sqrt (1 / (1 - r2 * r2)) / (2 * Real.pi)
    have := Real.sqrt_pos.mpr (div_pos one_pos h5)
    positivity

theorem infoGaussParams1D_weights_pos (p : ℝ) (hp0 : 0 < p) (hp1 : p < 1) :
    0 < infoGaussParams1D p 2 ∧ 0 < infoGaussParams1D p 3 := by
  have hq : 0 < 1 - p := by linarith
  have hpi := Real.pi_pos
  have hs : 0 < Real.sqrt (2 * Real.pi) := Real.sqrt_pos.mpr (by positivity)
  constructor
  · show 0 < p / Real.sqrt (2 * Real.pi)
    positivity
  · show 0 < (1 - p) / Real.sqrt (2 * Real.pi)
    positivity

/-- Claim C10: under the validity preconditions, in exact real arithmetic
every component density `psx_k` and every reference density `pisx_k` of the
coefficient arrays the two entry points assemble is strictly positive (and
finite), so the non-finite-substitution branches of both integrands are
unreachable and every per-point output equals the unguarded formula
`sum_k psx_k*log(psx_k/pisx_k) - px*log(px/pix)` (divergence variant),
resp. `sum_k psx_k*log(psx_k) - px*log(px)` (entropy variant). -/
theorem valid_params_unguarded (p r1 r2 th : ℝ) (hp0 : 0 < p) (hp1 : p < 1)
    (hr1 : |r1| < 1) (hr2 : |r2| < 1) :
    (∀ d pt, divPointVal (diThetaParams2D p r1 r2 th) d pt =
        divUnguarded (diThetaParams2D p r1 r2 th) d pt ∧
      divPointVal (diThetaParams1D p r1 r2 th) d pt =
        divUnguarded (diThetaParams1D p r1 r2 th) d pt ∧
      entPointVal (infoGaussParams2D p r1 r2) d pt =
        entUnguarded (infoGaussParams2D p r1 r2) d pt ∧
      entPointVal (infoGaussParams1D p) d pt =
        entUnguarded (infoGaussParams1D p) d pt) ∧
    (∀ k, k < 2 → ∀ s q,
      0 < psxOf (diThetaParams2D p r1 r2 th) k s q ∧
      0 < pisxOf (diThetaParams2D p r1 r2 th) k s ∧
      0 < psxOf (diThetaParams1D p r1 r2 th) k s q ∧
      0 < pisxOf (diThetaParams1D p r1 r2 th) k s) := by
  obtain ⟨a0, a1, a2, a3⟩ := diThetaParams2D_weights_pos p r1 r2 th hp0 hp1 hr1 hr2
  obtain ⟨b0, b1, b2, b3⟩ := diThetaParams1D_weights_pos p r1 r2 th hp0 hp1
  obtain ⟨c2, c3⟩ := infoGaussParams2D_weights_pos p r1 r2 hp0 hp1 hr1 hr2
  obtain ⟨d2, d3⟩ := infoGaussParams1D_weights_pos p hp0 hp1
  constructor
  · intro d pt
    exact ⟨divPointVal_eq_unguarded _ a0 a1 a2 a3 d pt,
      divPointVal_eq_unguarded _ b0 b1 b2 b3 d pt,
      entPointVal_eq_unguarded _ c2 c3 d pt,
      entPointVal_eq_unguarded _ d2 d3 d pt⟩
  · intro k hk s q
    interval_cases k
    · exact ⟨psxOf_pos _ _ _ _ (by norm_num [a2]), pisxOf_pos _ _ _ (by norm_num [a0]),
        psxOf_pos _ _ _ _ (by norm_num [b2]), pisxOf_pos _ _ _ (by norm_num [b0])⟩
    · exact ⟨psxOf_pos _ _ _ _ (by norm_num [a3]), pisxOf_pos _ _ _ (by norm_num [a1]),
        psxOf_pos _ _ _ _ (by norm_num [b3]), pisxOf_pos _ _ _ (by norm_num [b1])⟩

/-- Witness for C10 at `p = 1/2`, `rho1 = rho2 = 0`, `theta = 1`. -/
theorem valid_params_unguarded_w :
    (0:ℝ) < 1/2 ∧ (1/2:ℝ) < 1 ∧ |(0:ℝ)| < 1 ∧
    (∀ d pt, divPointVal (diThetaParams2D (1/2) 0 0 1) d pt =
        divUnguarded (diThetaParams2D (1/2) 0 0 1) d pt ∧
      divPointVal (diThetaParams1D (1/2) 0 0 1) d pt =
        divUnguarded (diThetaParams1D (1/2) 0 0 1) d pt ∧
      entPointVal (infoGaussParams2D (1/2) 0 0) d pt =
        entUnguarded (infoGaussParams2D (1/2) 0 0) d pt ∧
      entPointVal (infoGaussParams1D (1/2)) d pt =
        entUnguarded (infoGaussParams1D (1/2)) d pt) :=
  ⟨by norm_num, by norm_num, by simp,
    (valid_params_unguarded (1/2) 0 0 1 (by norm_num) (by norm_num) (by simp) (by simp)).1⟩

/-- Claim C5: for every valid `MixtureParams`, the coefficient derivation
produces exactly the spec's formulas — in 2-D `a_k = 1/(1-rho_k^2)`,
`w_k = p_k*sqrt(a_k)/(2*pi)`, `b_k = rho_k*a_k`; in 1-D `a_k = 1`,
`b_k = 0`, `w_k = p_k/sqrt(2*pi)` — with `p_1 = p`, `p_2 = 1-p` in
`infoGauss.c` (both branches) and in `diTheta`'s 2-D block; `diTheta`'s
1-D block applies the same 1-D formulas to the swapped weights
`(1-p, p)` (the swap is claim C4's subject). -/
theorem mixture_coefficients_spec (p r1 r2 th : ℝ) (hp0 : 0 < p) (hp1 : p < 1)
    (hr1 : |r1| < 1) (hr2 : |r2| < 1) :
    infoGaussParams2D p r1 r2 = specCoeffs2D p (1 - p) r1 r2 ∧
    infoGaussParams1D p = specCoeffs1D p (1 - p) ∧
    (∀ i, i < 8 → diThetaParams2D p r1 r2 th i = specCoeffs2D p (1 - p) r1 r2 i) ∧
    (∀ i, i < 8 → diThetaParams1D p r1 r2 th i = specCoeffs1D (1 - p) p i) := by
  refine ⟨funext fun i => ?_, funext fun i => ?_, fun i hi => ?_, fun i hi => ?_⟩
  · rcases i with _|_|_|_|_|_|_|_|i <;>
      simp [infoGaussParams2D, specCoeffs2D, pow_two]
  · rcases i with _|_|_|_|_|_|_|_|i <;>
      simp [infoGaussParams1D, specCoeffs1D]
  · interval_cases i <;>
      simp [diThetaParams2D, specCoeffs2D, pow_two]
  · interval_cases i <;>
      simp [diThetaParams1D, diThetaParams2D, specCoeffs1D]

/-- Witness for C5 at `p = 1/2`, `rho1 = rho2 = 0`, `theta = 1`. -/
theorem mixture_coefficients_spec_w :
    (0:ℝ) < 1/2 ∧ (1/2:ℝ) < 1 ∧ |(0:ℝ)| < 1 ∧
    infoGaussParams2D (1/2) 0 0 = specCoeffs2D (1/2) (1 - 1/2) 0 0 ∧
    infoGaussParams1D (1/2) = specCoeffs1D (1/2) (1 - 1/2) :=
  ⟨by norm_num, by norm_num, by simp,
    (mixture_coefficients_spec (1/2) 0 0 1 (by norm_num) (by norm_num) (by simp) (by simp)).1,
    (mixture_coefficients_spec (1/2) 0 0 1 (by norm_num) (by norm_num) (by simp) (by simp)).2.1⟩

/-- Claim C4: for every `theta` and valid `MixtureParams`,
`lossAtThreshold(theta)` (= `diTheta`) is the sum of the two integral
estimates, error estimates discarded: the 2-D divergence integral over
`[-5,5]x[-5,5]` with the correlated coefficients and reference scale
`theta` for both classes, plus the 1-D divergence integral over `[-5,5]`
with the mixing weights swapped, `a = 1`, `b = 0`, and the same reference
scale `theta`. -/
theorem diTheta_spec_decomposition (I : IntCall → ℝ × ℝ) (th p r1 r2 : ℝ)
    (hp0 : 0 < p) (hp1 : p < 1) (hr1 : |r1| < 1) (hr2 : |r2| < 1) :
    diTheta I th p r1 r2 =
      (I ⟨divBatch, specDivCoeffs2D p r1 r2 th, 2, -5, 5, 1000, 1 / 1000000, 1 / 1000⟩).1 +
      (I ⟨divBatch, specDivCoeffs1D p th, 1, -5, 5, 1000, 1 / 1000000, 1 / 1000⟩).1 := by
  have h2 : diThetaParams2D p r1 r2 th = specDivCoeffs2D p r1 r2 th := by
    funext i
    rcases i with _|_|_|_|_|_|_|_|_|_|i <;>
      simp [diThetaParams2D, specDivCoeffs2D, specCoeffs2D, pow_two]
  have h1 : diThetaParams1D p r1 r2 th = specDivCoeffs1D p th := by
    funext i
    rcases i with _|_|_|_|_|_|_|_|_|_|i <;>
      simp [diThetaParams1D, diThetaParams2D, specDivCoeffs1D, specCoeffs1D]
  rw [diTheta, diThetaCall1D, diThetaCall2D, h1, h2, add_comm]

/-- Witness for C4 at `theta = 0`, `p = 1/2`, `rho1 = rho2 = 0`, with the
zero integrator. -/
theorem diTheta_spec_decomposition_w :
    (0:ℝ) < 1/2 ∧ (1/2:ℝ) < 1 ∧ |(0:ℝ)| < 1 ∧
    diTheta (fun _ => ((0:ℝ), (0:ℝ))) 0 (1/2) 0 0 =
      ((fun _ => ((0:ℝ), (0:ℝ)))
        (⟨divBatch, specDivCoeffs2D (1/2) 0 0 0, 2, -5, 5, 1000, 1 / 1000000, 1 / 1000⟩ : IntCall)).1 +
      ((fun _ => ((0:ℝ), (0:ℝ)))
        (⟨divBatch, specDivCoeffs1D (1/2) 0, 1, -5, 5, 1000, 1 / 1000000, 1 / 1000⟩ : IntCall)).1 :=
  ⟨by norm_num, by norm_num, by simp,
    diTheta_spec_decomposition (fun _ => ((0:ℝ), (0:ℝ))) 0 (1/2) 0 0
      (by norm_num) (by norm_num) (by simp) (by simp)⟩

/-- Claim C8: for every valid `MixtureParams`, `infoGauss.c` returns the
integrator's estimate of the entropy integrand over `[-5,5]^d` plus the
closed-form discrete entropy `-p*log(p) - (1-p)*log(1-p)`, with the
natural logarithm throughout (so the result is in nats). -/
theorem infoGauss_entropy_plus_discrete (I : IntCall → ℝ × ℝ) (par : ℕ → ℝ)
    (parnum : ℕ) (hp0 : 0 < par 0) (hp1 : par 0 < 1) :
    infoGaussMex I par parnum =
      (I ⟨entBatch, infoGaussParams par parnum, infoGaussDim parnum, -5, 5, 1000,
        1 / 1000000, 1 / 1000⟩).1 +
      (-(par 0) * Real.log (par 0) - (1 - par 0) * Real.log (1 - par 0)) := by
  rw [infoGaussMex, infoGaussCall]
  congr 1
  by_cases h : parnum = 1 <;>
    simp [infoGaussParams, h, infoGaussParams1D, infoGaussParams2D]

/-- Witness for C8 at `p = 1/2`, one supplied parameter, the zero
integrator. -/
theorem infoGauss_entropy_plus_discrete_w :
    (0:ℝ) < (fun i => if i = 0 then (1/2:ℝ) else 0) 0 ∧
    (fun i => if i = 0 then (1/2:ℝ) else 0) 0 < 1 ∧
    infoGaussMex (fun _ => ((0:ℝ), (0:ℝ))) (fun i => if i = 0 then (1/2:ℝ) else 0) 1 =
      ((fun _ => ((0:ℝ), (0:ℝ)))
        (⟨entBatch, infoGaussParams (fun i => if i = 0 then (1/2:ℝ) else 0) 1,
          infoGaussDim 1, -5, 5, 1000, 1 / 1000000, 1 / 1000⟩ : IntCall)).1 +
      (-((fun i => if i = 0 then (1/2:ℝ) else 0) 0) *
          Real.log ((fun i => if i = 0 then (1/2:ℝ) else 0) 0) -
        (1 - (fun i => if i = 0 then (1/2:ℝ) else 0) 0) *
          Real.log (1 - (fun i => if i = 0 then (1/2:ℝ) else 0) 0)) :=
  ⟨by norm_num, by norm_num,
    infoGauss_entropy_plus_discrete (fun _ => ((0:ℝ), (0:ℝ)))
      (fun i => if i = 0 then (1/2:ℝ) else 0) 1 (by norm_num) (by norm_num)⟩

/-- Counterexample to claim C6: at `p = 1/2`, `rho1 = rho2 = 0`,
`theta = 0` and the sample statistic `s = -1/2`, the class-0 reference
density computed by the integrand (`params[0]*exp(params[8]*xc2sum)`,
value `1/2`) differs from the claim's
`w_1 * exp(-0.5*theta*S) = params[2]*exp(params[8]*xc2sum)` (value
`1/(4*pi)`): the reference density does NOT share the normalization
weight `w_k`. -/
theorem pisx_not_normalized_weight :
    pisxOf (diThetaParams2D (1/2) 0 0 0) 0 (-(1/2)) ≠
      diThetaParams2D (1/2) 0 0 0 2 *
        Real.exp (diThetaParams2D (1/2) 0 0 0 8 * (-(1/2))) := by
  have hlhs : pisxOf (diThetaParams2D (1/2) 0 0 0) 0 (-(1/2)) = 1/2 := by
    show (1/2 : ℝ) * Real.exp (0 * (-(1/2))) = 1/2
    simp
  have hrhs : diThetaParams2D (1/2) 0 0 0 2 *
      Real.exp (diThetaParams2D (1/2) 0 0 0 8 * (-(1/2))) = 1 / (4 * Real.pi) := by
    show (1/2 : ℝ) * Real.sqrt (1 / (1 - 0 * 0)) / (2 * Real.pi) *
      Real.exp (0 * (-(1/2))) = 1 / (4 * Real.pi)
    rw [show (1 : ℝ) / (1 - 0 * 0) = 1 by norm_num, Real.sqrt_one]
    simp
    ring
  rw [hlhs, hrhs]
  have hpi := Real.pi_pos
  have h : (1 : ℝ) / (4 * Real.pi) < 1 / 2 := by
    rw [div_lt_div_iff₀ (by positivity) (by norm_num)]
    nlinarith [Real.pi_gt_three]
  exact ne_of_gt h

/-- Amended C6: in both coefficient arrays of `diTheta`, the reference
density of class `k` is `p_k * exp(theta * s)` where `p_k` is the RAW
mixing weight stored in `params[0+k]` (for the 2-D call `p_1 = p`,
`p_2 = 1-p`; for the 1-D call the swapped `1-p`, `p`), not the
normalization weight `w_k = params[2+k]` used by the model density. -/
theorem pisx_uses_raw_mixing_weight (p r1 r2 th s : ℝ) :
    pisxOf (diThetaParams2D p r1 r2 th) 0 s = p * Real.exp (th * s) ∧
    pisxOf (diThetaParams2D p r1 r2 th) 1 s = (1 - p) * Real.exp (th * s) ∧
    pisxOf (diThetaParams1D p r1 r2 th) 0 s = (1 - p) * Real.exp (th * s) ∧
    pisxOf (diThetaParams1D p r1 r2 th) 1 s = p * Real.exp (th * s) := by
  refine ⟨?_, ?_, ?_, ?_⟩ <;> rfl

theorem exPsx0_zero :
    psxOf exParams 0 (sOf 1 exPoint (muOf 0)) (prodOf 1 exPoint (muOf 0)) = 0 := by
  simp [psxOf, exParams]

theorem exPisx0_one : pisxOf exParams 0 (sOf 1 exPoint (muOf 0)) = 1 := by
  simp [pisxOf, exParams]

theorem exDivTerm0_nan : divTerm exParams 1 exPoint 0 = Dbl.nan := by
  simp only [divTerm, exPsx0_zero, exPisx0_one]
  rw [Dbl.div_fin_fin 0 1 one_ne_zero]
  norm_num
  rw [show Dbl.log (.fin 0) = Dbl.ninf by simp [Dbl.log]]
  simp [Dbl.mul]

theorem exDivDinow_nan : divDinow exParams 1 exPoint = Dbl.nan := by
  simp [divDinow, exDivTerm0_nan, Dbl.add, Dbl.isFinite]

theorem exPsx1_exp :
    psxOf exParams 1 (sOf 1 exPoint (muOf 1)) (prodOf 1 exPoint (muOf 1)) =
      Real.exp 1 := by
  simp [psxOf, exParams, sOf, prodOf, exPoint, muOf]

theorem exPisx1_one : pisxOf exParams 1 (sOf 1 exPoint (muOf 1)) = 1 := by
  simp [pisxOf, exParams]

theorem exDivTerm1_fin : divTerm exParams 1 exPoint 1 = .fin (Real.exp 1) := by
  simp only [divTerm, exPsx1_exp, exPisx1_one]
  rw [Dbl.div_fin_fin _ _ one_ne_zero, div_one,
    Dbl.log_fin_pos _ (Real.exp_pos 1), Real.log_exp, Dbl.mul_fin_fin, mul_one]

theorem exClaimedVal : claimedPointDiv exParams 1 exPoint = Real.exp 1 * Real.log 2 := by
  have hexp2 : (0:ℝ) < Real.exp 1 / 2 := by positivity
  simp only [claimedPointDiv, exDivTerm0_nan, exDivTerm1_fin, exPsx0_zero, exPsx1_exp,
    exPisx0_one, exPisx1_one, zero_add]
  rw [show (1:ℝ) + 1 = 2 by norm_num,
    Dbl.div_fin_fin _ _ (two_ne_zero), Dbl.log_fin_pos _ hexp2, Dbl.mul_fin_fin]
  show (0:ℝ) + Real.exp 1 - Real.exp 1 * Real.log (Real.exp 1 / 2) = _
  rw [Real.log_div (Real.exp_ne_zero 1) two_ne_zero, Real.log_exp]
  ring

/-- Counterexample to claim C7: with `w1 = 0` (class-0 term
`0 * log 0 = nan`) at the 1-D origin, the source's guard zeroes the WHOLE
point — the class-1 term and the final correction are skipped — whereas
the claimed per-class-only substitution would yield
`0 + e - e*log(e/2) = e*log 2 > 0`. -/
theorem guard_not_per_class :
    divPointVal exParams 1 exPoint = 0 ∧
    divPointVal exParams 1 exPoint ≠ claimedPointDiv exParams 1 exPoint := by
  have h0 : divPointVal exParams 1 exPoint = 0 := by
    simp [divPointVal, exDivDinow_nan]
  refine ⟨h0, ?_⟩
  rw [h0, exClaimedVal]
  exact (ne_of_gt (mul_pos (Real.exp_pos 1) (Real.log_pos one_lt_two))).symm

/-- Amended C7: when the running class sum `dinow` (resp. `infonow`)
becomes non-finite, the integrand replaces that ENTIRE point's value by
`0` — the remaining class term and the final correction are skipped —
rather than only the offending class term; other points of the batch are
unaffected (each output depends only on its own point, claim C9). -/
theorem nonfinite_zeroes_whole_point (P : ℕ → ℝ) (d : ℕ) (pt : ℕ → ℝ)
    (Q : ℕ → ℝ) (dq : ℕ) (qt : ℕ → ℝ)
    (hdiv : (divDinow P d pt).isFinite = false)
    (hent : (entDinow Q dq qt).isFinite = false) :
    divPointVal P d pt = 0 ∧ entPointVal Q dq qt = 0 := by
  constructor
  · rcases h : divDinow P d pt with _ | _ | _ | v
    · simp [divPointVal, h]
    · simp [divPointVal, h]
    · simp [divPointVal, h]
    · rw [h] at hdiv; simp [Dbl.isFinite] at hdiv
  · rcases h : entDinow Q dq qt with _ | _ | _ | v
    · simp [entPointVal, h]
    · simp [entPointVal, h]
    · simp [entPointVal, h]
    · rw [h] at hent; simp [Dbl.isFinite] at hent

theorem exEntDinow_nan : entDinow exEntParams 1 exPoint = Dbl.nan := by
  have hpsx : psxOf exEntParams 0 (sOf 1 exPoint (muOf 0)) (prodOf 1 exPoint (muOf 0)) = 0 := by
    simp [psxOf, exEntParams]
  simp only [entDinow, entTerm, hpsx]
  rw [show Dbl.log (.fin 0) = Dbl.ninf by simp [Dbl.log]]
  simp [Dbl.mul, Dbl.add, Dbl.isFinite]

/-- Witness for the amended C7 at the concrete degenerate inputs. -/
theorem nonfinite_zeroes_whole_point_w :
    (divDinow exParams 1 exPoint).isFinite = false ∧
    (entDinow exEntParams 1 exPoint).isFinite = false ∧
    (divPointVal exParams 1 exPoint = 0 ∧ entPointVal exEntParams 1 exPoint = 0) := by
  have h1 : (divDinow exParams 1 exPoint).isFinite = false := by
    rw [exDivDinow_nan]; rfl
  have h2 : (entDinow exEntParams 1 exPoint).isFinite = false := by
    rw [exEntDinow_nan]; rfl
  exact ⟨h1, h2, nonfinite_zeroes_whole_point exParams 1 exPoint exEntParams 1 exPoint h1 h2⟩

theorem divBatch_get (P : ℕ → ℝ) (d : ℕ) :
    ∀ (n : ℕ) (x : ℕ → ℝ) (i : ℕ), i < n →
      (divBatch P d x n)[i]? = some (divPointVal P d fun j => x (d * i + j))
  | 0, _, i, h => absurd h (Nat.not_lt_zero i)
  | n + 1, x, 0, _ => by
      simp [divBatch]
  | n + 1, x, i + 1, h => by
      rw [divBatch, List.getElem?_cons_succ,
        divBatch_get P d n (fun j => x (j + d)) i (Nat.lt_of_succ_lt_succ h)]
      congr 2
      funext j
      congr 1
      ring

theorem entBatch_get (P : ℕ → ℝ) (d : ℕ) :
    ∀ (n : ℕ) (x : ℕ → ℝ) (i : ℕ), i < n →
      (entBatch P d x n)[i]? = some (entPointVal P d fun j => x (d * i + j))
  | 0, _, i, h => absurd h (Nat.not_lt_zero i)
  | n + 1, x, 0, _ => by
      simp [entBatch]
  | n + 1, x, i + 1, h => by
      rw [entBatch, List.getElem?_cons_succ,
        entBatch_get P d n (fun j => x (j + d)) i (Nat.lt_of_succ_lt_succ h)]
      congr 2
      funext j
      congr 1
      ring

/-- Claim C9: for every coefficient set, dimension `d` in `{1,2}`, and
positive batch size `n`, the `i`-th output of either integrand depends
only on the `i`-th point (the coordinates `x[d*i .. d*i+d-1]`) and the
coefficients: an `n`-point batch yields at position `i` exactly the value
a separate single-point batch over that point yields, independent of
batch size and of the other points — hence of ordering. -/
theorem integrand_batch_pointwise (P : ℕ → ℝ) (d : ℕ) (x : ℕ → ℝ) (n i : ℕ)
    (hd : d = 1 ∨ d = 2) (hn : 0 < n) (hi : i < n) :
    ((divBatch P d x n)[i]? = some (divPointVal P d fun j => x (d * i + j)) ∧
      divBatch P d (fun j => x (d * i + j)) 1 =
        [divPointVal P d fun j => x (d * i + j)]) ∧
    ((entBatch P d x n)[i]? = some (entPointVal P d fun j => x (d * i + j)) ∧
      entBatch P d (fun j => x (d * i + j)) 1 =
        [entPointVal P d fun j => x (d * i + j)]) :=
  ⟨⟨divBatch_get P d n x i hi, rfl⟩, ⟨entBatch_get P d n x i hi, rfl⟩⟩

/-- Witness for C9 at `d = 1`, a two-point batch, `i = 1`. -/
theorem integrand_batch_pointwise_w :
    ((1:ℕ) = 1 ∨ (1:ℕ) = 2) ∧ (0:ℕ) < 2 ∧ (1:ℕ) < 2 ∧
    ((divBatch (fun _ => (1:ℝ)) 1 (fun _ => 0) 2)[1]? =
        some (divPointVal (fun _ => (1:ℝ)) 1 fun j => (fun _ => (0:ℝ)) (1 * 1 + j)) ∧
      (entBatch (fun _ => (1:ℝ)) 1 (fun _ => 0) 2)[1]? =
        some (entPointVal (fun _ => (1:ℝ)) 1 fun j => (fun _ => (0:ℝ)) (1 * 1 + j))) :=
  ⟨Or.inl rfl, by norm_num, by norm_num,
    (integrand_batch_pointwise (fun _ => (1:ℝ)) 1 (fun _ => 0) 2 1
      (Or.inl rfl) (by norm_num) (by norm_num)).1.1,
    (integrand_batch_pointwise (fun _ => (1:ℝ)) 1 (fun _ => 0) 2 1
      (Or.inl rfl) (by norm_num) (by norm_num)).2.1⟩

theorem expandLeft_sound {α β : Type} [LinearOrderedField α] [LinearOrder β]
    (f : α → β) :
    ∀ (n : ℕ) (b b' : BracketSt α β), expandLeft f n b = some b' →
      (b.dil = f b.thl ∧ b.dim = f b.thm ∧ b.dir = f b.thr) →
      (b'.dil = f b'.thl ∧ b'.dim = f b'.thm ∧ b'.dir = f b'.thr) ∧
        ¬b'.dil < b'.dim
  | 0, _, _, h => by simp [expandLeft] at h
  | n + 1, b, b', h => by
      rw [expandLeft] at h
      by_cases hc : b.dil < b.dim
      · rw [if_pos hc] at h
        intro hinv
        exact expandLeft_sound f n _ b' h ⟨rfl, hinv.1, hinv.2.1⟩
      · rw [if_neg hc] at h
        intro hinv
        obtain rfl := Option.some.inj h
        exact ⟨hinv, hc⟩

theorem expandRight_sound {α β : Type} [LinearOrderedField α] [LinearOrder β]
    (f : α → β) :
    ∀ (n : ℕ) (b b' : BracketSt α β), expandRight f n b = some b' →
      (b.dil = f b.thl ∧ b.dim = f b.thm ∧ b.dir = f b.thr) →
      b.dim ≤ b.dil →
      (b'.dil = f b'.thl ∧ b'.dim = f b'.thm ∧ b'.dir = f b'.thr) ∧
        b'.dim ≤ b'.dil ∧ ¬b'.dir < b'.dim
  | 0, _, _, h => by simp [expandRight] at h
  | n + 1, b, b', h => by
      rw [expandRight] at h
      by_cases hc : b.dir < b.dim
      · rw [if_pos hc] at h
        intro hinv _
        exact expandRight_sound f n _ b' h ⟨hinv.2.1, hinv.2.2, rfl⟩ (le_of_lt hc)
      · rw [if_neg hc] at h
        intro hinv hml
        obtain rfl := Option.some.inj h
        exact ⟨hinv, hml, hc⟩

/-- Claim C3: whenever both expansion loops of the bracket search (seeded
at `theta_l=-0.5, theta_m=0.5, theta_r=1.5`, left loop doubling `theta_l`
while `f(theta_l) < f(theta_m)`, right loop doubling `theta_r` while
`f(theta_r) < f(theta_m)`) terminate, the resulting triple satisfies
`f(theta_mid) <= f(theta_low)` and `f(theta_mid) <= f(theta_high)`. -/
theorem bracketSearch_min_invariant {α β : Type} [LinearOrderedField α]
    [LinearOrder β] (f : α → β) (fuel : ℕ) (b : BracketSt α β)
    (h : bracketSearch f fuel = some b) :
    f b.thm ≤ f b.thl ∧ f b.thm ≤ f b.thr := by
  obtain ⟨b₁, h₁, h₂⟩ := Option.bind_eq_some.mp h
  have H1 := expandLeft_sound f fuel (bracketInit f) b₁ h₁ ⟨rfl, rfl, rfl⟩
  have H2 := expandRight_sound f fuel b₁ b h₂ H1.1 (not_lt.mp H1.2)
  obtain ⟨⟨e1, e2, e3⟩, hml, hmr⟩ := H2
  exact ⟨by rw [← e1, ← e2]; exact hml, by rw [← e2, ← e3]; exact not_lt.mp hmr⟩

/-- Witness for C3 over the rationals with `f x = x*x` (both loops exit
immediately from the seed triple). -/
theorem bracketSearch_min_invariant_w :
    bracketSearch (fun x : ℚ => x * x) 1 = some (bracketInit (fun x : ℚ => x * x)) ∧
    ((1:ℚ)/2) * (1/2) ≤ (-(1/2) : ℚ) * (-(1/2)) ∧
    ((1:ℚ)/2) * (1/2) ≤ ((3:ℚ)/2) * (3/2) := by
  have e1 : expandLeft (fun x : ℚ => x * x) 1 (bracketInit (fun x : ℚ => x * x)) =
      some (bracketInit (fun x : ℚ => x * x)) := by
    show (if (bracketInit (fun x : ℚ => x * x)).dil < (bracketInit (fun x : ℚ => x * x)).dim
        then (none : Option (BracketSt ℚ ℚ))
        else some (bracketInit (fun x : ℚ => x * x))) =
      some (bracketInit (fun x : ℚ => x * x))
    rw [if_neg]
    norm_num [bracketInit]
  have e2 : expandRight (fun x : ℚ => x * x) 1 (bracketInit (fun x : ℚ => x * x)) =
      some (bracketInit (fun x : ℚ => x * x)) := by
    show (if (bracketInit (fun x : ℚ => x * x)).dir < (bracketInit (fun x : ℚ => x * x)).dim
        then (none : Option (BracketSt ℚ ℚ))
        else some (bracketInit (fun x : ℚ => x * x))) =
      some (bracketInit (fun x : ℚ => x * x))
    rw [if_neg]
    norm_num [bracketInit]
  have h : bracketSearch (fun x : ℚ => x * x) 1 = some (bracketInit (fun x : ℚ => x * x)) := by
    rw [bracketSearch, e1]
    exact e2
  have hmin := bracketSearch_min_invariant (fun x : ℚ => x * x) 1 _ h
  exact ⟨h, hmin.1, hmin.2⟩

theorem minRefineState_const (init : MinState) :
    ∀ n : ℕ, minRefineState constSteps init (n + 1) = ⟨init.iter, 0, 1⟩
  | 0 => rfl
  | n + 1 => by
      rw [minRefineState, minRefineState_const init n]
      rfl

/-- Claim C1 refuted on the code: the refinement loop of `mexFunction` in
`dinidlGaussTheta.c` declares `iter = 0` and tests `iter < max_iter` with
`max_iter = 1000`, but never increments `iter`.  Along a minimizer
trajectory whose interval stays `[0, 1]` (which never meets the tolerance
`1e-6 + 1e-3*min(|thl|,|thr|)`), after 1000 completed refinement steps the
counter still reads `0` and the loop condition still holds, so a 1001-st
step is executed: the 1000-step cap the spec describes is inoperative. -/
theorem dinidl_minloop_runs_past_cap :
    (minRefineState constSteps ⟨0, -(1/2), 3/2⟩ 1000).iter = 0 ∧
    minLoopCond (minRefineState constSteps ⟨0, -(1/2), 3/2⟩ 1000) = true := by
  have h := minRefineState_const ⟨0, -(1/2), 3/2⟩ 999
  rw [show (1000 : ℕ) = 999 + 1 from rfl, h]
  refine ⟨rfl, ?_⟩
  show minLoopCond ⟨0, 0, 1⟩ = true
  simp only [minLoopCond, gslTestContinue, Bool.and_eq_true, decide_eq_true_eq]
  norm_num

/-- Counterexample to claim C2: with the invalid parameters `p = 2`,
`rho1 = 1` (so `a_1 = 1/(1-1)` divides by zero), neither entry point
rejects the input: one `diTheta` evaluation still performs its two
integrator calls, and `infoGauss.c` still performs its one — no
DomainError precedes integration. -/
theorem diTheta_integrates_invalid_params :
    ¬validParams 2 1 0 ∧
    (diThetaCalls 0 2 1 0).length = 2 ∧
    (infoGaussCalls (fun i => if i = 0 then (2:ℝ) else if i = 1 then 1 else 0) 3).length = 1 := by
  refine ⟨?_, rfl, rfl⟩
  intro hv
  have h := hv.2.1
  norm_num at h

/-- Amended C2: neither entry point validates `MixtureParams`.  For every
input — valid or not — each `diTheta` evaluation performs exactly its two
integrator calls and `infoGauss.c` exactly its one, and the coefficient
`a_1 = 1/(1-rho1*rho1)` is computed unconditionally (at `|rho1| = 1` this
is a division by zero, `+Infinity` in IEEE arithmetic, which flows into
the integrand unchecked). -/
theorem entry_points_no_validation (th p r1 r2 : ℝ) (par : ℕ → ℝ) (parnum : ℕ) :
    (diThetaCalls th p r1 r2).length = 2 ∧
    (infoGaussCalls par parnum).length = 1 ∧
    diThetaParams2D p r1 r2 th 4 = 1 / (1 - r1 * r1) :=
  ⟨rfl, rfl, rfl⟩

end GaussInfo
